import Mathlib

/-!
Shallow embedding of the validation engine and submission lifecycle of
`src/frontend/components/PriorAuthForm.tsx` (the prior-authorization intake
form).  Pure helpers model the JavaScript string/date primitives the
component uses; the component's handlers become explicit state-passing
functions on a `ControllerState` record.  React's `useState` setters are
modelled by functional record update; a handler that reads `formData` from
its render closure reads the pre-event state, exactly as the source does.
-/

namespace RCM

/-- The field names of `FormData` that are wired to `handleChange` /
`handleBlur` in the JSX (all seven are text/select/date inputs; the
component has no `hasNotes` checkbox and the file input uses
`handleFileChange`, so those two members of `FormData` never flow through
`handleChange`). -/
inductive FieldName where
  | patientId
  | dob
  | physicianName
  | npiNumber
  | procedureCode
  | startDate
  | endDate
deriving DecidableEq

/-- The metadata of an uploaded `File` that the component inspects:
`file.name` and `file.size` (bytes). -/
structure FileMeta where
  name : String
  size : Nat
deriving DecidableEq

/-- `interface FormData` of the component. -/
structure FormData where
  patientId : String
  dob : String
  physicianName : String
  npiNumber : String
  procedureCode : String
  startDate : String
  endDate : String
  hasNotes : Bool
  uploadedFile : Option FileMeta
deriving DecidableEq

/-- `FormErrors` (`{[key: string]: string}`): per the spec an absent key and
an empty string both mean "no error", so a total record with `""` as the
no-error value is an equivalent model.  Only the seven validated fields
ever receive an entry. -/
structure FormErrors where
  patientId : String
  dob : String
  physicianName : String
  npiNumber : String
  procedureCode : String
  startDate : String
  endDate : String
deriving DecidableEq

/-- Toast kind: `'success' | 'error'`. -/
inductive ToastKind where
  | success
  | error
deriving DecidableEq

/-- The toast state `{ message, type } | null` (single slot: each `setToast`
replaces the previous value). -/
structure Toast where
  message : String
  kind : ToastKind
deriving DecidableEq

/-- The component's mutable state: `formData`, `errors`, `isSubmitting`,
`toast`.  (`isUploading` and `fileInputRef` are never read by the logic.) -/
structure ControllerState where
  formData : FormData
  errors : FormErrors
  isSubmitting : Bool
  toast : Option Toast
deriving DecidableEq

def getField (fd : FormData) : FieldName → String
  | .patientId => fd.patientId
  | .dob => fd.dob
  | .physicianName => fd.physicianName
  | .npiNumber => fd.npiNumber
  | .procedureCode => fd.procedureCode
  | .startDate => fd.startDate
  | .endDate => fd.endDate

def setField (fd : FormData) (name : FieldName) (v : String) : FormData :=
  match name with
  | .patientId => { fd with patientId := v }
  | .dob => { fd with dob := v }
  | .physicianName => { fd with physicianName := v }
  | .npiNumber => { fd with npiNumber := v }
  | .procedureCode => { fd with procedureCode := v }
  | .startDate => { fd with startDate := v }
  | .endDate => { fd with endDate := v }

def errGet (e : FormErrors) : FieldName → String
  | .patientId => e.patientId
  | .dob => e.dob
  | .physicianName => e.physicianName
  | .npiNumber => e.npiNumber
  | .procedureCode => e.procedureCode
  | .startDate => e.startDate
  | .endDate => e.endDate

def errSet (e : FormErrors) (name : FieldName) (v : String) : FormErrors :=
  match name with
  | .patientId => { e with patientId := v }
  | .dob => { e with dob := v }
  | .physicianName => { e with physicianName := v }
  | .npiNumber => { e with npiNumber := v }
  | .procedureCode => { e with procedureCode := v }
  | .startDate => { e with startDate := v }
  | .endDate => { e with endDate := v }

/-- All seven validated field names (the iteration domain of
`Object.keys(formData)` minus `hasNotes`, which the code skips, and
`uploadedFile`, whose validator is the default `""` branch). -/
def allFields : List FieldName :=
  [.patientId, .dob, .physicianName, .npiNumber, .procedureCode,
   .startDate, .endDate]

-- ===========================================================================
-- JavaScript string / date primitives used by the component
-- ===========================================================================

/-- Character class of the regex `[0-9a-fA-F-]`. -/
def isUuidChar (c : Char) : Bool :=
  decide (('0' ≤ c ∧ c ≤ '9') ∨ ('a' ≤ c ∧ c ≤ 'f') ∨
          ('A' ≤ c ∧ c ≤ 'F') ∨ c = '-')

/-- The regex test `/^[0-9a-fA-F-]{36}$/.test(value)`: exactly 36
characters, each a hexadecimal digit or a hyphen. -/
def uuidPattern (v : String) : Bool :=
  v.data.length == 36 && v.data.all isUuidChar

/-- The regex test `/^\d{10}$/.test(value)`: exactly 10 decimal digits. -/
def npiPattern (v : String) : Bool :=
  v.data.length == 10 && v.data.all Char.isDigit

/-- `String.prototype.toLowerCase` (ASCII case fold, which is all the
component's file extensions need). -/
def lowerStr (s : String) : String :=
  ⟨s.data.map Char.toLower⟩

/-- `str.split(sep)` for a one-character separator, on the character list:
always returns at least one (possibly empty) segment. -/
def splitOnChar (sep : Char) : List Char → List (List Char)
  | [] => [[]]
  | c :: rest =>
    match splitOnChar sep rest with
    | [] => [[c]]
    | seg :: segs =>
      if c = sep then [] :: seg :: segs else (c :: seg) :: segs

/-- `name.split('.').pop()`: the suffix after the last `'.'`, or the whole
string when it contains none (a one-element split array). -/
def afterLastDot : List Char → List Char
  | [] => []
  | c :: rest =>
    if rest.contains '.' then afterLastDot rest
    else if c = '.' then rest
    else c :: rest

/-- Digits-only decimal parse of one split segment (`Number`-like strictness
is enough for the date strings the date inputs produce). -/
def digitsToNat? (l : List Char) : Option Nat :=
  if l ≠ [] ∧ l.all Char.isDigit then
    some (l.foldl (fun n c => n * 10 + (c.toNat - 48)) 0)
  else none

def isLeapYear (y : Nat) : Bool :=
  (y % 4 == 0 && y % 100 != 0) || y % 400 == 0

def daysInMonth (y m : Nat) : Nat :=
  if m = 2 then (if isLeapYear y then 29 else 28)
  else if m = 4 ∨ m = 6 ∨ m = 9 ∨ m = 11 then 30
  else 31

/-- `new Date(s)` for the dash-separated numeric date strings this form
produces (`<input type="date">` emits `YYYY-MM-DD`; unpadded variants parse
to the same calendar day, matching a UTC-environment JavaScript engine).
Out-of-range components give an Invalid Date, modelled as `none`. -/
def parseDate? (s : String) : Option (Nat × Nat × Nat) :=
  match splitOnChar '-' s.data with
  | [ys, ms, ds] =>
    match digitsToNat? ys, digitsToNat? ms, digitsToNat? ds with
    | some y, some m, some dd =>
      if 1 ≤ m ∧ m ≤ 12 ∧ 1 ≤ dd ∧ dd ≤ daysInMonth y m then
        some (y, m, dd)
      else none
    | _, _, _ => none
  | _ => none

/-- A timestamp-like key: strictly monotone in the calendar order of valid
`(year, month, day)` triples, so `<` on keys is the order `new Date(a) <
new Date(b)` compares by. -/
def dateKey : Nat × Nat × Nat → Nat
  | (y, m, d) => y * 416 + m * 32 + d

/-- Strict calendar order on `(year, month, day)` triples (lexicographic). -/
def calLt (a b : Nat × Nat × Nat) : Prop :=
  a.1 < b.1 ∨ (a.1 = b.1 ∧ (a.2.1 < b.2.1 ∨ (a.2.1 = b.2.1 ∧ a.2.2 < b.2.2)))

instance (a b : Nat × Nat × Nat) : Decidable (calLt a b) := by
  unfold calLt; infer_instance

/-- `new Date(a) < new Date(b)`: comparison of the two timestamps; any
comparison against an Invalid Date (`NaN`) is `false`. -/
def jsDateLt (a b : String) : Bool :=
  match parseDate? a, parseDate? b with
  | some da, some db => decide (dateKey da < dateKey db)
  | _, _ => false

-- ===========================================================================
-- validateField
-- ===========================================================================

def invalidUuidMsg : String :=
  "Invalid UUID format (e.g., 123e4567-e89b-12d3-a456-426614174000)"

def endBeforeStartMsg : String := "End Date cannot be before Start Date"

/-- `validateField(name, value)`; `fd` is the `formData` the function closes
over (used only by the `endDate` cross-field check).  Fields outside the
seven named cases hit the `default` branch and return `""`. -/
def validateField (fd : FormData) (name : FieldName) (value : String) : String :=
  match name with
  | .patientId =>
    if value = "" then "Patient ID is required"
    else if uuidPattern value = false ∧ 0 < value.length then invalidUuidMsg
    else ""
  | .dob =>
    if value = "" then "Date of Birth is required" else ""
  | .physicianName =>
    if value = "" then "Physician Name is required"
    else if value.length < 2 then "Name must be at least 2 characters"
    else ""
  | .npiNumber =>
    if value = "" then "NPI Number is required"
    else if npiPattern value = false then "NPI must be exactly 10 digits"
    else ""
  | .procedureCode =>
    if value = "" then "Procedure Code is required" else ""
  | .startDate =>
    if value = "" then "Start Date is required" else ""
  | .endDate =>
    if value = "" then "End Date is required"
    else if fd.startDate ≠ "" ∧ jsDateLt value fd.startDate = true then
      endBeforeStartMsg
    else ""

/-- One `{value, label}` entry of the `PROCEDURE_CODES` configuration. -/
structure ProcCode where
  value : String
  label : String
deriving DecidableEq

def PROCEDURE_CODES : List ProcCode :=
  [⟨"", "Select a procedure code"⟩,
   ⟨"A876", "A876 - Specialized Consultation"⟩,
   ⟨"B901", "B901 - Advanced Imaging"⟩,
   ⟨"C102", "C102 - Therapeutic Procedure"⟩,
   ⟨"D203", "D203 - Diagnostic Test"⟩]

-- ===========================================================================
-- Handlers
-- ===========================================================================

def initialFormData : FormData :=
  { patientId := "", dob := "", physicianName := "", npiNumber := ""
  , procedureCode := "", startDate := "", endDate := ""
  , hasNotes := false, uploadedFile := none }

def noErrors : FormErrors :=
  { patientId := "", dob := "", physicianName := "", npiNumber := ""
  , procedureCode := "", startDate := "", endDate := "" }

def initialState : ControllerState :=
  { formData := initialFormData, errors := noErrors
  , isSubmitting := false, toast := none }

/-- `handleChange` for the seven wired inputs (all string-valued; the
`type === 'checkbox'` arm and the `name !== 'hasNotes'` guard are dead for
them).  The validator closes over the pre-event `formData`, exactly as the
React render closure does. -/
def handleChange (s : ControllerState) (name : FieldName) (value : String) :
    ControllerState :=
  { s with
    formData := setField s.formData name value
    errors := errSet s.errors name (validateField s.formData name value) }

/-- `handleBlur`: re-validates the field at its current value. -/
def handleBlur (s : ControllerState) (name : FieldName) : ControllerState :=
  { s with
    errors := errSet s.errors name
      (validateField s.formData name (getField s.formData name)) }

def allowedTypes : List String := [".pdf", ".doc", ".docx"]

/-- `'.' + file.name.split('.').pop()?.toLowerCase()`. -/
def fileExt (name : String) : String :=
  "." ++ lowerStr ⟨afterLastDot name.data⟩

/-- `const maxSize = 10 * 1024 * 1024`. -/
def maxSize : Nat := 10 * 1024 * 1024

def invalidTypeMsg : String :=
  "Invalid file type. Only PDF, DOC, and DOCX files are allowed."

def fileTooLargeMsg : String := "File too large. Maximum size is 10MB."

/-- `handleFileChange`: `none` models an empty `e.target.files` (early
return); otherwise type gate, then size gate, then acceptance. -/
def handleFileChange (s : ControllerState) (file : Option FileMeta) :
    ControllerState :=
  match file with
  | none => s
  | some f =>
    if allowedTypes.contains (fileExt f.name) = false then
      { s with toast := some ⟨invalidTypeMsg, ToastKind.error⟩ }
    else if maxSize < f.size then
      { s with toast := some ⟨fileTooLargeMsg, ToastKind.error⟩ }
    else
      { s with
        formData := { s.formData with uploadedFile := some f, hasNotes := true }
        toast := some ⟨"File \"" ++ f.name ++ "\" ready to upload.",
                       ToastKind.success⟩ }

/-- `removeFile` (the file-input DOM reset has no logical effect). -/
def removeFile (s : ControllerState) : ControllerState :=
  { s with formData := { s.formData with uploadedFile := none, hasNotes := false } }

/-- The error object `isFormValid` builds: one `validateField` result per
validated field.  (The hard-coded `if (!formData.x)` re-checks in the
source assign exactly the strings `validateField` already produced for
empty values, so they change nothing.) -/
def computeAllErrors (fd : FormData) : FormErrors :=
  { patientId := validateField fd .patientId fd.patientId
  , dob := validateField fd .dob fd.dob
  , physicianName := validateField fd .physicianName fd.physicianName
  , npiNumber := validateField fd .npiNumber fd.npiNumber
  , procedureCode := validateField fd .procedureCode fd.procedureCode
  , startDate := validateField fd .startDate fd.startDate
  , endDate := validateField fd .endDate fd.endDate }

/-- `isFormValid()`: returns the fresh error object it stores via
`setErrors` plus the validity flag (false exactly when some field produced
a non-empty error). -/
def isFormValid (fd : FormData) : FormErrors × Bool :=
  let newErrors := computeAllErrors fd
  (newErrors, allFields.all fun f => errGet newErrors f == "")

def fixErrorsMsg : String := "Please fix the validation errors before submitting."

def submitSuccessMsg : String :=
  "Prior Authorization Request submitted successfully."

/-- The synchronous prefix of `handleSubmit`, up to (and including the
decision to reach) the awaited submit capability.  The returned `Bool` is
whether the external capability is invoked (the code reaches the `await`).
Invalid: store the errors, toast, return.  Valid: store the errors, enter
`isSubmitting`, clear the toast, invoke the capability. -/
def handleSubmit (s : ControllerState) : ControllerState × Bool :=
  let res := isFormValid s.formData
  if res.2 = false then
    ({ s with errors := res.1, toast := some ⟨fixErrorsMsg, ToastKind.error⟩ },
     false)
  else
    ({ s with errors := res.1, isSubmitting := true, toast := none }, true)

/-- Resolution of the in-flight submission (the simulated delay never
rejects, so only the success continuation is reachable). -/
def submitResolve (s : ControllerState) : ControllerState :=
  { s with isSubmitting := false
         , toast := some ⟨submitSuccessMsg, ToastKind.success⟩ }

/-- The submit `Button`'s `disabled` attribute: `isLoading || props.disabled`
with both wired to `isSubmitting`. -/
def buttonDisabled (isLoading disabled : Bool) : Bool := isLoading || disabled

def submitButtonDisabled (s : ControllerState) : Bool :=
  buttonDisabled s.isSubmitting s.isSubmitting

/-- A user-level submit event: a disabled submit button dispatches no form
submission (so `handleSubmit` never runs), otherwise `handleSubmit` runs. -/
def submitEvent (s : ControllerState) : ControllerState × Bool :=
  if submitButtonDisabled s = true then (s, false) else handleSubmit s

-- ===========================================================================
-- Event-level transition system (for reachability invariants)
-- ===========================================================================

/-- The user events the rendered component can dispatch. -/
inductive Event where
  | change (name : FieldName) (value : String)
  | blur (name : FieldName)
  | fileChange (file : Option FileMeta)
  | removeUpload
  | submitClick
  | submitResolved
  | closeToast

def step (s : ControllerState) : Event → ControllerState
  | .change n v => handleChange s n v
  | .blur n => handleBlur s n
  | .fileChange f => handleFileChange s f
  | .removeUpload => removeFile s
  | .submitClick => (submitEvent s).1
  | .submitResolved => if s.isSubmitting = true then submitResolve s else s
  | .closeToast => { s with toast := none }

/-- States reachable from mount through the component's operations. -/
inductive Reachable : ControllerState → Prop where
  | init : Reachable initialState
  | next (s : ControllerState) (e : Event) : Reachable s → Reachable (step s e)

-- ===========================================================================
-- Concrete states used by witnesses and counterexamples
-- ===========================================================================

/-- The C1 scenario: set end `2024-01-05`, start `2024-01-01` (valid), then
change start to `2024-01-10`. -/
def c1State : ControllerState :=
  handleChange
    (handleChange (handleChange initialState .endDate "2024-01-05")
      .startDate "2024-01-01")
    .startDate "2024-01-10"

/-- A form state in which every field validates. -/
def validFormData : FormData :=
  { patientId := "123e4567-e89b-12d3-a456-426614174000"
  , dob := "1990-04-02", physicianName := "Dr. Jane Doe"
  , npiNumber := "1234567890", procedureCode := "A876"
  , startDate := "2024-01-01", endDate := "2024-01-05"
  , hasNotes := false, uploadedFile := none }

def validState : ControllerState :=
  { formData := validFormData, errors := noErrors
  , isSubmitting := false, toast := none }

/-- A reachable state exercising a file acceptance followed by an edit. -/
def c4WitnessState : ControllerState :=
  step (step initialState (.fileChange (some ⟨"notes.pdf", 500000⟩)))
    (.change .patientId "x")

-- ===========================================================================
-- Helper lemmas
-- ===========================================================================

theorem errGet_computeAllErrors (fd : FormData) (g : FieldName) :
    errGet (computeAllErrors fd) g = validateField fd g (getField fd g) := by
  cases g <;> rfl

theorem mem_allFields (f : FieldName) : f ∈ allFields := by
  cases f <;> simp [allFields]

theorem length_pos_of_ne_empty (v : String) (h : v ≠ "") : 0 < v.length := by
  cases v with
  | mk data =>
    cases data with
    | nil => exact absurd rfl h
    | cons c cs => simp [String.length]

theorem setField_hasNotes (fd : FormData) (n : FieldName) (v : String) :
    (setField fd n v).hasNotes = fd.hasNotes := by
  cases n <;> rfl

theorem setField_uploadedFile (fd : FormData) (n : FieldName) (v : String) :
    (setField fd n v).uploadedFile = fd.uploadedFile := by
  cases n <;> rfl

theorem daysInMonth_le (y m : Nat) : daysInMonth y m ≤ 31 := by
  unfold daysInMonth
  split
  · split <;> omega
  · split <;> omega

theorem dateKey_lt_iff (a b : Nat × Nat × Nat)
    (ha : 1 ≤ a.2.1 ∧ a.2.1 ≤ 12 ∧ 1 ≤ a.2.2 ∧ a.2.2 ≤ 31)
    (hb : 1 ≤ b.2.1 ∧ b.2.1 ≤ 12 ∧ 1 ≤ b.2.2 ∧ b.2.2 ≤ 31) :
    dateKey a < dateKey b ↔ calLt a b := by
  obtain ⟨y1, m1, d1⟩ := a
  obtain ⟨y2, m2, d2⟩ := b
  simp only [dateKey, calLt] at ha hb ⊢
  omega

theorem parseDate_bounds (s : String) (t : Nat × Nat × Nat)
    (h : parseDate? s = some t) :
    1 ≤ t.2.1 ∧ t.2.1 ≤ 12 ∧ 1 ≤ t.2.2 ∧ t.2.2 ≤ 31 := by
  unfold parseDate? at h
  split at h
  · split at h
    · split at h
      · rename_i hguard
        injection h with h
        subst h
        exact ⟨hguard.1, hguard.2.1, hguard.2.2.1,
          le_trans hguard.2.2.2 (daysInMonth_le _ _)⟩
      · exact absurd h (by simp)
    · exact absurd h (by simp)
  · exact absurd h (by simp)

theorem parse_ne_empty (s : String) (t : Nat × Nat × Nat)
    (h : parseDate? s = some t) : s ≠ "" := by
  intro he
  subst he
  have hnone : parseDate? "" = none := rfl
  rw [hnone] at h
  exact Option.noConfusion h

theorem not_eq_false_of_eq_true {b : Bool} (h : b = true) : ¬(b = false) := by
  rw [h]
  exact fun hf => Bool.noConfusion hf

theorem afterLastDot_of_no_dot (l : List Char) (h : l.contains '.' = false) :
    afterLastDot l = l := by
  cases l with
  | nil => rfl
  | cons c rest =>
    rw [List.contains_cons, Bool.or_eq_false_iff] at h
    have hc : ¬(c = '.') := by
      intro hceq
      rw [hceq] at h
      simpa using h.1
    unfold afterLastDot
    rw [h.2, if_neg (by simp), if_neg hc]

-- ===========================================================================
-- Claims
-- ===========================================================================

/-- Claim C1 (code bug, evaluated at the failing input): set end
`2024-01-05`, start `2024-01-01`, then change start to `2024-01-10` via
`handleChange`.  The error map entry for `endDate` stays `""` — the change
to `startDate` does not re-run the `endDate` validator — even though
running `validateField` on the resulting form state reports
"End Date cannot be before Start Date". -/
theorem c1_endDate_error_stale :
    c1State.errors.endDate = "" ∧
    c1State.formData.startDate = "2024-01-10" ∧
    c1State.formData.endDate = "2024-01-05" ∧
    validateField c1State.formData .endDate c1State.formData.endDate =
      endBeforeStartMsg := by
  decide

/-- Claim C2 (counterexample): from a fully valid form state, a direct
second `handleSubmit` call issued while the first left the controller in
`isSubmitting` reaches the external submit capability again, so the
capability is invoked twice across the two calls, not exactly once. -/
theorem c2_counterexample :
    (handleSubmit validState).1.isSubmitting = true ∧
    (handleSubmit validState).2 = true ∧
    (handleSubmit (handleSubmit validState).1).2 = true := by
  decide

/-- Claim C2 (amended): while `isSubmitting` the submit button is disabled
(`disabled = isLoading || props.disabled`, both wired to `isSubmitting`),
so a user-level submit event during submission is a no-op that does not
invoke the capability; the re-entry protection lives in the button, not in
`handleSubmit`. -/
theorem c2_submit_noop_via_disabled_button (s : ControllerState)
    (h : s.isSubmitting = true) :
    submitEvent s = (s, false) ∧ submitButtonDisabled s = true := by
  have hd : submitButtonDisabled s = true := by
    simp [submitButtonDisabled, buttonDisabled, h]
  exact ⟨by simp [submitEvent, hd], hd⟩

theorem c2_submit_noop_via_disabled_button_witness :
    submitEvent { validState with isSubmitting := true } =
      ({ validState with isSubmitting := true }, false) :=
  (c2_submit_noop_via_disabled_button { validState with isSubmitting := true }
    rfl).1

/-- Claim C3: if any field is invalid, `handleSubmit` does not invoke the
external submit capability, emits the single "fix the validation errors"
error toast, and stores an error map holding the `validateField` result of
every field (so every invalid field gets its entry, not only the first). -/
theorem c3_submit_blocks_invalid (s : ControllerState) (f : FieldName)
    (h : validateField s.formData f (getField s.formData f) ≠ "") :
    (handleSubmit s).2 = false ∧
    (handleSubmit s).1.toast = some ⟨fixErrorsMsg, ToastKind.error⟩ ∧
    ∀ g, errGet (handleSubmit s).1.errors g =
      validateField s.formData g (getField s.formData g) := by
  have hf : (errGet (computeAllErrors s.formData) f == "") = false := by
    rw [errGet_computeAllErrors]
    exact beq_eq_false_iff_ne.mpr h
  have hall :
      (allFields.all fun g => errGet (computeAllErrors s.formData) g == "") =
        false := by
    refine Bool.eq_false_iff.mpr fun hc => ?_
    have hcf := List.all_eq_true.mp hc f (mem_allFields f)
    rw [hf] at hcf
    exact Bool.noConfusion hcf
  have hres : handleSubmit s =
      ({ s with errors := computeAllErrors s.formData,
                toast := some ⟨fixErrorsMsg, ToastKind.error⟩ }, false) := by
    simp [handleSubmit, isFormValid, hall]
  refine ⟨by rw [hres], by rw [hres], fun g => ?_⟩
  rw [hres]
  exact errGet_computeAllErrors s.formData g

theorem c3_submit_blocks_invalid_witness :
    (validateField initialState.formData .patientId
       (getField initialState.formData .patientId) ≠ "") ∧
    (handleSubmit initialState).2 = false ∧
    (handleSubmit initialState).1.toast =
      some ⟨fixErrorsMsg, ToastKind.error⟩ := by
  have h : validateField initialState.formData .patientId
      (getField initialState.formData .patientId) ≠ "" := by decide
  have hc := c3_submit_blocks_invalid initialState .patientId h
  exact ⟨h, hc.1, hc.2.1⟩

/-- Claim C4: in every state reachable through the component's operations,
`hasNotes` is true exactly when `uploadedFile` is present; no operation
makes the two diverge. -/
theorem c4_hasNotes_invariant (s : ControllerState) (h : Reachable s) :
    s.formData.hasNotes = s.formData.uploadedFile.isSome := by
  induction h with
  | init => rfl
  | next s e _ ih =>
    cases e with
    | change n v =>
      simpa [step, handleChange, setField_hasNotes, setField_uploadedFile]
        using ih
    | blur n => simpa [step, handleBlur] using ih
    | fileChange f =>
      cases f with
      | none => simpa [step, handleFileChange] using ih
      | some fm =>
        simp only [step, handleFileChange]
        split
        · simpa using ih
        · split
          · simpa using ih
          · rfl
    | removeUpload => simp [step, removeFile]
    | submitClick =>
      simp only [step, submitEvent]
      split
      · simpa using ih
      · simp only [handleSubmit]
        split <;> simpa using ih
    | submitResolved =>
      simp only [step]
      split
      · simpa [submitResolve] using ih
      · exact ih
    | closeToast => simpa [step] using ih

theorem c4_hasNotes_invariant_witness :
    c4WitnessState.formData.hasNotes =
      c4WitnessState.formData.uploadedFile.isSome :=
  c4_hasNotes_invariant c4WitnessState
    (Reachable.next _ _ (Reachable.next _ _ Reachable.init))

/-- Claim C5 (counterexample): for a non-empty non-UUID value the validator
does return an error, but the string is the long variant with the example
suffix, not exactly "Invalid UUID format". -/
theorem c5_counterexample :
    validateField initialFormData .patientId "not-a-uuid" ≠
      "Invalid UUID format" ∧
    validateField initialFormData .patientId "not-a-uuid" = invalidUuidMsg := by
  decide

/-- Claim C5 (amended): empty `patientId` yields "Patient ID is required";
every non-empty value failing the 36-character hex-and-hyphen pattern
yields exactly the string
"Invalid UUID format (e.g., 123e4567-e89b-12d3-a456-426614174000)"; every
value matching the pattern yields no error. -/
theorem c5_patientId_validation (fd : FormData) (v : String) :
    (v = "" → validateField fd .patientId v = "Patient ID is required") ∧
    (v ≠ "" → uuidPattern v = false →
      validateField fd .patientId v = invalidUuidMsg) ∧
    (uuidPattern v = true → validateField fd .patientId v = "") := by
  refine ⟨fun h => by simp [validateField, h], fun h1 h2 => ?_, fun h => ?_⟩
  · simp only [validateField]
    rw [if_neg h1, if_pos ⟨h2, length_pos_of_ne_empty v h1⟩]
  · have hne : v ≠ "" := by
      intro he
      subst he
      exact absurd h (by decide)
    simp only [validateField]
    rw [if_neg hne, if_neg (by simp [h])]

theorem c5_patientId_validation_witness :
    (uuidPattern "123e4567-e89b-12d3-a456-426614174000" = true) ∧
    validateField initialFormData .patientId
      "123e4567-e89b-12d3-a456-426614174000" = "" := by
  have h : uuidPattern "123e4567-e89b-12d3-a456-426614174000" = true := by
    decide
  exact ⟨h, (c5_patientId_validation initialFormData _).2.2 h⟩

/-- Claim C6 (counterexample): "ZZZZ" is non-empty and is not among the
configured procedure code values, yet the validator accepts it. -/
theorem c6_counterexample :
    validateField initialFormData .procedureCode "ZZZZ" = "" ∧
    (PROCEDURE_CODES.map ProcCode.value).contains "ZZZZ" = false ∧
    "ZZZZ" ≠ "" := by
  decide

/-- Claim C6 (amended): the `procedureCode` validator rejects only the
empty placeholder value (with "Procedure Code is required") and accepts
every non-empty string; membership in the configured code list is enforced
by the select options, not by the validator.  The placeholder `""` is one
of the configured `{value, label}` pairs. -/
theorem c6_procedureCode_validation (fd : FormData) (v : String) :
    validateField fd .procedureCode v =
      (if v = "" then "Procedure Code is required" else "") ∧
    (PROCEDURE_CODES.map ProcCode.value).contains "" = true :=
  ⟨rfl, by decide⟩

/-- Claim C7: with both dates present and parseable, the `endDate`
validator reports "End Date cannot be before Start Date" exactly when the
end date is strictly earlier than the start date in calendar order (so
equal dates — including differently encoded spellings of the same day,
which parse to the same triple — are valid, and later end dates are
valid). -/
theorem c7_endDate_ordering (fd : FormData) (e : String)
    (ds de : Nat × Nat × Nat)
    (hs : parseDate? fd.startDate = some ds)
    (he : parseDate? e = some de) :
    validateField fd .endDate e =
      (if calLt de ds then endBeforeStartMsg else "") := by
  have hnes : fd.startDate ≠ "" := parse_ne_empty _ _ hs
  have hnee : e ≠ "" := parse_ne_empty _ _ he
  have hkey : jsDateLt e fd.startDate = decide (dateKey de < dateKey ds) := by
    unfold jsDateLt
    rw [he, hs]
  have hiff : dateKey de < dateKey ds ↔ calLt de ds :=
    dateKey_lt_iff de ds (parseDate_bounds _ _ he) (parseDate_bounds _ _ hs)
  simp only [validateField]
  rw [if_neg hnee]
  by_cases hcal : calLt de ds
  · rw [if_pos ⟨hnes, by rw [hkey]; exact decide_eq_true (hiff.mpr hcal)⟩,
      if_pos hcal]
  · rw [if_neg ?_, if_neg hcal]
    rintro ⟨-, hj⟩
    rw [hkey] at hj
    exact hcal (hiff.mp (of_decide_eq_true hj))

theorem c7_endDate_ordering_witness :
    (parseDate? "2024-01-10" = some (2024, 1, 10)) ∧
    (parseDate? "2024-01-05" = some (2024, 1, 5)) ∧
    validateField { initialFormData with startDate := "2024-01-10" }
      .endDate "2024-01-05" = endBeforeStartMsg := by
  have h := c7_endDate_ordering
    { initialFormData with startDate := "2024-01-10" } "2024-01-05"
    (2024, 1, 10) (2024, 1, 5) (by decide) (by decide)
  rw [if_pos (by decide)] at h
  exact ⟨by decide, by decide, h⟩

/-- Claim C8: `handleFileChange` accepts a supplied file exactly when its
computed extension is in the `.pdf`/`.doc`/`.docx` allow-set (which is
matched after lower-casing, hence case-insensitively) and its size is at
most `10 * 1024 * 1024` bytes; acceptance stores the file, sets `hasNotes`,
and emits the success toast, while any other supplied file leaves the form
data unchanged and emits an error toast. -/
theorem c8_file_acceptance (s : ControllerState) (f : FileMeta) :
    (allowedTypes.contains (fileExt f.name) = true ∧ f.size ≤ maxSize →
      handleFileChange s (some f) =
        { s with
          formData :=
            { s.formData with uploadedFile := some f, hasNotes := true }
          toast := some ⟨"File \"" ++ f.name ++ "\" ready to upload.",
                         ToastKind.success⟩ }) ∧
    (¬(allowedTypes.contains (fileExt f.name) = true ∧ f.size ≤ maxSize) →
      (handleFileChange s (some f)).formData = s.formData ∧
      ∃ t, (handleFileChange s (some f)).toast = some t ∧
        t.kind = ToastKind.error) := by
  constructor
  · rintro ⟨ht, hsz⟩
    simp only [handleFileChange]
    rw [if_neg (not_eq_false_of_eq_true ht), if_neg (by omega)]
  · intro hn
    by_cases ht : allowedTypes.contains (fileExt f.name) = true
    · have hsz : maxSize < f.size := by
        rcases Nat.lt_or_ge maxSize f.size with h1 | h1
        · exact h1
        · exact absurd ⟨ht, h1⟩ hn
      simp only [handleFileChange]
      rw [if_neg (not_eq_false_of_eq_true ht), if_pos hsz]
      exact ⟨rfl, ⟨_, rfl, rfl⟩⟩
    · have ht' : allowedTypes.contains (fileExt f.name) = false := by
        cases hx : allowedTypes.contains (fileExt f.name)
        · rfl
        · exact absurd hx ht
      simp only [handleFileChange]
      rw [if_pos ht']
      exact ⟨rfl, ⟨_, rfl, rfl⟩⟩

theorem c8_file_acceptance_witness :
    (allowedTypes.contains (fileExt "notes.pdf") = true ∧
      (500000 : Nat) ≤ maxSize) ∧
    (handleFileChange initialState
      (some ⟨"notes.pdf", 500000⟩)).formData.uploadedFile =
        some ⟨"notes.pdf", 500000⟩ ∧
    (handleFileChange initialState
      (some ⟨"notes.pdf", 500000⟩)).formData.hasNotes = true ∧
    (handleFileChange initialState
      (some ⟨"notes.pdf", 11000000⟩)).formData = initialState.formData ∧
    (handleFileChange initialState
      (some ⟨"notes.exe", 1⟩)).formData = initialState.formData := by
  have hc : allowedTypes.contains (fileExt "notes.pdf") = true ∧
      (500000 : Nat) ≤ maxSize := by decide
  have h1 := (c8_file_acceptance initialState ⟨"notes.pdf", 500000⟩).1 hc
  have h2 := (c8_file_acceptance initialState ⟨"notes.pdf", 11000000⟩).2
    (by decide)
  have h3 := (c8_file_acceptance initialState ⟨"notes.exe", 1⟩).2 (by decide)
  exact ⟨hc, by rw [h1], by rw [h1], h2.1, h3.1⟩

/-- Claim C9: a rejected file (wrong extension, or size over the ceiling
when the extension is allowed) changes nothing but the toast: the result is
exactly the old state with one error toast whose message names the
violated constraint (the type message and the size message are distinct
strings). -/
theorem c9_rejection_no_mutation (s : ControllerState) (f : FileMeta)
    (h : ¬(allowedTypes.contains (fileExt f.name) = true ∧ f.size ≤ maxSize)) :
    handleFileChange s (some f) =
      { s with toast := some ⟨(if allowedTypes.contains (fileExt f.name) = true
                               then fileTooLargeMsg else invalidTypeMsg),
                             ToastKind.error⟩ } ∧
    invalidTypeMsg ≠ fileTooLargeMsg := by
  refine ⟨?_, by decide⟩
  by_cases ht : allowedTypes.contains (fileExt f.name) = true
  · have hsz : maxSize < f.size := by
      rcases Nat.lt_or_ge maxSize f.size with h1 | h1
      · exact h1
      · exact absurd ⟨ht, h1⟩ h
    simp only [handleFileChange]
    rw [if_neg (not_eq_false_of_eq_true ht), if_pos hsz, if_pos ht]
  · have ht' : allowedTypes.contains (fileExt f.name) = false := by
      cases hx : allowedTypes.contains (fileExt f.name)
      · rfl
      · exact absurd hx ht
    simp only [handleFileChange]
    rw [if_pos ht', if_neg ht]

theorem c9_rejection_no_mutation_witness :
    (¬(allowedTypes.contains (fileExt "notes.exe") = true ∧
        (1 : Nat) ≤ maxSize)) ∧
    handleFileChange initialState (some ⟨"notes.exe", 1⟩) =
      { initialState with toast := some ⟨invalidTypeMsg, ToastKind.error⟩ } := by
  have hn : ¬(allowedTypes.contains (fileExt "notes.exe") = true ∧
      (1 : Nat) ≤ maxSize) := by decide
  have h := (c9_rejection_no_mutation initialState ⟨"notes.exe", 1⟩ hn).1
  rw [if_neg (by decide)] at h
  exact ⟨hn, h⟩

/-- Claim C10 (counterexample): the file name "pdf" contains no dot, yet
its computed extension is ".pdf", which is in the allow-set, so the file is
accepted — refuting "a dotless name is always rejected". -/
theorem c10_counterexample :
    ("pdf" : String).data.contains '.' = false ∧
    (handleFileChange initialState (some ⟨"pdf", 100⟩)).formData.uploadedFile =
      some ⟨"pdf", 100⟩ ∧
    (handleFileChange initialState
      (some ⟨"pdf", 100⟩)).formData.hasNotes = true := by
  decide

/-- Claim C10 (amended): for a name without a dot the computed extension is
`'.'` prepended to the lower-cased full name; such a file is rejected with
the type-error toast and no state change unless that string happens to be
in the allow-set (i.e. unless the name itself is "pdf", "doc" or "docx" up
to case). -/
theorem c10_dotless_extension (s : ControllerState) (f : FileMeta)
    (hd : f.name.data.contains '.' = false) :
    fileExt f.name = "." ++ lowerStr f.name ∧
    (allowedTypes.contains ("." ++ lowerStr f.name) = false →
      handleFileChange s (some f) =
        { s with toast := some ⟨invalidTypeMsg, ToastKind.error⟩ }) := by
  have hext : fileExt f.name = "." ++ lowerStr f.name := by
    unfold fileExt
    rw [afterLastDot_of_no_dot _ hd]
  refine ⟨hext, fun hno => ?_⟩
  simp only [handleFileChange]
  rw [if_pos (by rw [hext]; exact hno)]

theorem c10_dotless_extension_witness :
    (("README" : String).data.contains '.' = false) ∧
    (allowedTypes.contains ("." ++ lowerStr "README") = false) ∧
    handleFileChange initialState (some ⟨"README", 10⟩) =
      { initialState with toast := some ⟨invalidTypeMsg, ToastKind.error⟩ } := by
  have h := c10_dotless_extension initialState ⟨"README", 10⟩ (by decide)
  exact ⟨by decide, by decide, h.2 (by decide)⟩

end RCM
